import Mathlib

/-!
Verification of the email entity model (`src/models/email.rs`): CRUD lookups,
soft-visibility scoping, upsert diffing, relationship resolution and display.
The store is embedded as a list of rows; fallible store operations return
`Except DbError`.
-/

/-- Row of the `emails` table (`struct Email`): synthetic `id`, natural-key
`value`, hidden-flag `unscoped`, tri-state `valid`. -/
structure Email where
  id : Int
  value : String
  unscoped : Bool
  valid : Option Bool
deriving DecidableEq

/-- Construction record (`struct NewEmail`): natural key plus creation-time
attributes, no id. -/
structure NewEmail where
  value : String
  valid : Option Bool
deriving DecidableEq

/-- Delta record (`struct EmailUpdate`): id plus the optional `valid`
attribute; a `none` field is an explicit no-op. -/
structure EmailUpdate where
  id : Int
  valid : Option Bool
deriving DecidableEq

/-- Store-level error: `diesel::NotFound` as wrapped by `Error::from`. -/
inductive DbError where
  | notFound
deriving DecidableEq

/-- Embeds `diesel`'s `.first(...)`: the first row matching the filter, or a
`NotFound` error when no row matches. -/
def firstEmail (db : List Email) (p : Email → Bool) : Except DbError Email :=
  match db.find? p with
  | some e => .ok e
  | none => .error .notFound

/-- Embeds `diesel`'s `.optional()` adapter: converts a `NotFound` error into a
successful empty option, passing successes through. -/
def optionalResult (r : Except DbError Email) : Except DbError (Option Email) :=
  match r with
  | .ok e => .ok (some e)
  | .error .notFound => .ok none

/-- Embeds `Model for Email::get`: look the row up by the `value` column, failing
with `NotFound` when absent. -/
def Email.get (db : List Email) (query : String) : Except DbError Email :=
  firstEmail db (fun e => e.value == query)

/-- Embeds `Model for Email::get_opt`: the same lookup by the `value` column with
`.optional()` applied to the result. -/
def Email.get_opt (db : List Email) (query : String) : Except DbError (Option Email) :=
  optionalResult (firstEmail db (fun e => e.value == query))

/-- Embeds `Model for Email::by_id`: look the row up by the `id` column. -/
def Email.by_id (db : List Email) (my_id : Int) : Except DbError Email :=
  firstEmail db (fun e => e.id == my_id)

/-- Embeds `Scopable for Email::scoped`: effective visibility is the negation of the
stored `unscoped` flag. -/
def Email.scoped (e : Email) : Bool := !e.unscoped

/-- Embeds `Scopable for Email::scope`: one bulk `UPDATE ... SET unscoped = false`
over the rows matching the filter. -/
def Email.scope (db : List Email) (p : Email → Bool) : List Email :=
  db.map (fun e => if p e then { e with unscoped := false } else e)

/-- Embeds `Scopable for Email::noscope`: one bulk `UPDATE ... SET unscoped = true`
over the rows matching the filter. -/
def Email.noscope (db : List Email) (p : Email → Bool) : List Email :=
  db.map (fun e => if p e then { e with unscoped := true } else e)

/-- Modelled from the spec: the generic `upsert_opt` helper of the models
framework is not under `src/`; per the spec the field is set to the New
record's value only if it differs from the existing stored value, and
cleared (explicit no-op) if they are equal. -/
def upsert_opt (insert : Option Bool) (existing : Option Bool) : Option Bool :=
  if insert ≠ existing then insert else none

/-- Embeds `Upsertable<Email> for NewEmail::upsert`: the update carries the existing
entity's id and the diffed `valid` field. -/
def NewEmail.upsert (n : NewEmail) (existing : Email) : EmailUpdate :=
  { id := existing.id, valid := upsert_opt n.valid existing.valid }

/-- Embeds `Upsert for EmailUpdate::is_dirty`: true iff the `valid` field is set. -/
def EmailUpdate.is_dirty (u : EmailUpdate) : Bool := u.valid.isSome

/-- Modelled from the spec: `Database::update_email` (called by
`EmailUpdate::apply`) is not under `src/`; it applies the changeset to the
row with the update's id, where an absent (`none`) attribute is an explicit
no-op, never a write ("an Update record with no set attributes must be a
guaranteed no-op when applied"). -/
def update_email (db : List Email) (u : EmailUpdate) : List Email :=
  db.map (fun e =>
    if e.id == u.id then
      { e with valid := match u.valid with | some v => some v | none => e.valid }
    else e)

/-- Embeds `Upsert for EmailUpdate::apply`: applies the changeset through the store,
returning the entity id. -/
def EmailUpdate.apply (u : EmailUpdate) (db : List Email) :
    Except DbError (List Email × Int) :=
  .ok (update_email db u, u.id)

/-- Row of the `breaches` table, as referenced from this module: synthetic id
and natural-key value (declared outside `src/`, fields per the shared entity
pattern of the spec). -/
structure Breach where
  id : Int
  value : String
deriving DecidableEq

/-- Association row of the `breach_emails` join table: links a breach and an
email and optionally carries a per-relation password payload. -/
structure BreachEmail where
  breach_id : Int
  email_id : Int
  password : Option String
deriving DecidableEq

/-- Embeds `diesel`'s `.first(...)` over the `breaches` table filtered by id. -/
def firstBreach (tbl : List Breach) (bid : Int) : Except DbError Breach :=
  match tbl.find? (fun b => b.id == bid) with
  | some b => .ok b
  | none => .error .notFound

/-- The `collect::<Result<Vec<_>, _>>` loop inside `Email::breaches`: resolve
each `(breach_id, password)` pair in order, stopping at the first failure.  -/
def resolveBreaches (pairs : List (Int × Option String)) (tbl : List Breach) :
    Except DbError (List (Breach × Option String)) :=
  match pairs with
  | [] => .ok []
  | (bid, pw) :: rest =>
    match firstBreach tbl bid with
    | .error err => .error err
    | .ok b =>
      match resolveBreaches rest tbl with
      | .error err => .error err
      | .ok l => .ok ((b, pw) :: l)

/-- Embeds `Email::breaches`: fetch the association rows belonging to this email,
project them to `(breach_id, password)`, then resolve every referenced breach
by id. -/
def Email.breaches (e : Email) (assoc : List BreachEmail) (tbl : List Breach) :
    Except DbError (List (Breach × Option String)) :=
  let pairs := (assoc.filter (fun a => a.email_id == e.id)).map
    (fun a => (a.breach_id, a.password))
  resolveBreaches pairs tbl

/-- Rust's `{:?}` escaping of one character, as used for terminal-safe
quoting of string values. -/
def escapeChar (c : Char) : List Char :=
  if c = '"' then ['\\', '"']
  else if c = '\\' then ['\\', '\\']
  else if c = '\n' then ['\\', 'n']
  else if c = '\r' then ['\\', 'r']
  else if c = '\t' then ['\\', 't']
  else [c]

/-- Rust's `{:?}` escaping of a character sequence. -/
def escapeChars : List Char → List Char
  | [] => []
  | c :: cs => escapeChar c ++ escapeChars cs

/-- Rust's `{:?}` rendering of a string: the escaped text between double
quotes. -/
def rustDebugQuote (s : String) : String :=
  ⟨'"' :: (escapeChars s.data ++ ['"'])⟩

/-- Embeds `struct PrintableEmail`: the compact single-line view, holding only the
natural-key value. -/
structure PrintableEmail where
  value : String
deriving DecidableEq

/-- Embeds `fmt::Display for PrintableEmail`: `write!(w, "{:?}", self.value)`. -/
def PrintableEmail.display (p : PrintableEmail) : String :=
  rustDebugQuote p.value

/-- Embeds `Printable<PrintableEmail> for Email::printable`: ignores the store
handle and always succeeds with the entity's value. -/
def Email.printable (e : Email) (_db : List Email) : Except DbError PrintableEmail :=
  .ok { value := e.value }

/-- Embeds `Printable<PrintableEmail> for NewEmail::printable`: ignores the store
handle and always succeeds with the record's value. -/
def NewEmail.printable (n : NewEmail) (_db : List Email) : Except DbError PrintableEmail :=
  .ok { value := n.value }

/-- The scripting-engine state handle (`Arc<State>`), never inspected by this
module's conversion. -/
def ScriptState := Unit

/-- Embeds `pub type InsertEmail = NewEmail;` -/
abbrev InsertEmail := NewEmail

/-- Embeds `LuaInsertToNew for InsertEmail::try_into_new`: `Ok(self)`. -/
def InsertEmail.try_into_new (i : InsertEmail) (_state : ScriptState) :
    Except DbError NewEmail :=
  .ok i

/-- Color tags used by this module's styled output (`Green`, `Red`). -/
inductive Color where
  | green
  | red
deriving DecidableEq

/-- One styled text segment of the terminal sink: an optional color tag plus
literal text. -/
structure Segment where
  color : Option Color
  text : String
deriving DecidableEq

/-- Modelled from the spec: `fmt::DetailFormatter::id` is not under `src/`;
the header line starts with the entity id rendered as plain text. -/
def DF.writeId (w : List Segment) (n : Int) : List Segment :=
  w ++ [{ color := none, text := toString n }]

/-- Modelled from the spec: `DetailFormatter::debug::<C, _>` is not under
`src/`; it appends the value debug-quoted in the given color. -/
def DF.debug (w : List Segment) (c : Color) (s : String) : List Segment :=
  w ++ [{ color := some c, text := rustDebugQuote s }]

/-- Modelled from the spec: `DetailFormatter::display::<C, _>` is not under
`src/`; it appends the text as-is in the given color. -/
def DF.displaySeg (w : List Segment) (c : Color) (s : String) : List Segment :=
  w ++ [{ color := some c, text := s }]

/-- Embeds `write!(w, ...)` on the detail formatter: an unstyled literal segment. -/
def DF.write (w : List Segment) (s : String) : List Segment :=
  w ++ [{ color := none, text := s }]

/-- Embeds `struct BreachWithPassword`: a resolved child with its optional
per-relation password. -/
structure BreachWithPassword where
  breach : Breach
  password : Option String
deriving DecidableEq

/-- Embeds `fmt::Display for BreachWithPassword`: the printable breach, followed by
the debug-quoted password in parentheses when present. -/
def BreachWithPassword.display (b : BreachWithPassword) : String :=
  rustDebugQuote b.breach.value ++
    (match b.password with
     | some pw => " (" ++ rustDebugQuote pw ++ ")"
     | none => "")

/-- Embeds `struct DetailedEmail`: the fully resolved detail view. -/
structure DetailedEmail where
  id : Int
  value : String
  breaches : List BreachWithPassword
  unscoped : Bool
  valid : Option Bool
deriving DecidableEq

/-- Embeds `DisplayableDetailed for DetailedEmail::scoped`. -/
def DetailedEmail.scoped (d : DetailedEmail) : Bool := !d.unscoped

/-- Embeds `DisplayableDetailed for DetailedEmail::print`: id, green debug-quoted
value, then the validity badge when `valid` is set. -/
def DetailedEmail.print (d : DetailedEmail) (w : List Segment) : List Segment :=
  let w := DF.writeId w d.id
  let w := DF.debug w .green d.value
  match d.valid with
  | some v =>
    let w := DF.write w " ["
    let w := if v then DF.displaySeg w .green "valid" else DF.displaySeg w .red "invalid"
    DF.write w "]"
  | none => w

/-- Embeds `DisplayableDetailed for DetailedEmail::children`: one child line per
resolved breach, in order. -/
def DetailedEmail.children (d : DetailedEmail) : List String :=
  d.breaches.foldl (fun acc b => acc ++ [b.display]) []

/-- Embeds `Detailed for Email::detailed`: resolve the breaches, render each with
its password, and materialize the detail view. -/
def Email.detailed (e : Email) (assoc : List BreachEmail) (tbl : List Breach) :
    Except DbError DetailedEmail :=
  match e.breaches assoc tbl with
  | .error err => .error err
  | .ok l =>
    .ok { id := e.id
          value := e.value
          breaches := l.map (fun x => { breach := x.1, password := x.2 })
          unscoped := e.unscoped
          valid := e.valid }

theorem map_map_congr {α β γ : Type} (f : α → β) (g : β → γ) (h : α → γ)
    (hw : ∀ a, g (f a) = h a) (l : List α) : (l.map f).map g = l.map h := by
  induction l with
  | nil => rfl
  | cons a t ih => simp only [List.map_cons, hw a, ih]

theorem forall₂_map_self {α β : Type} (R : α → β → Prop) (f : α → β)
    (h : ∀ a, R a (f a)) (l : List α) : List.Forall₂ R l (l.map f) := by
  induction l with
  | nil => exact List.Forall₂.nil
  | cons a t ih => exact List.Forall₂.cons (h a) ih

theorem map_id_of_fixed {α : Type} (f : α → α) (h : ∀ a, f a = a) (l : List α) :
    l.map f = l := by
  induction l with
  | nil => rfl
  | cons a t ih => simp only [List.map_cons, h a, ih]

/-- C1 fails as stated: with `N.valid = none` and `E.valid = some true` the
`valid` attributes differ, yet the produced update has `valid = none` and is
not dirty, because setting the field "to N's value" (`none`) is
indistinguishable from clearing it. -/
theorem upsert_is_dirty_counterexample :
    ¬(((NewEmail.mk "a@b.com" none).upsert
        (Email.mk 1 "a@b.com" false (some true))).is_dirty = true
      ↔ (NewEmail.mk "a@b.com" none).valid
          ≠ (Email.mk 1 "a@b.com" false (some true)).valid) := by
  decide

/-- C1 (amended): `upsert(N, E).is_dirty() == true` iff N's `valid` is set
(`Some`) and differs from E's stored `valid`; the field is set to N's value
whenever the values differ, and cleared when they are equal. -/
theorem upsert_is_dirty_iff (n : NewEmail) (e : Email) :
    ((n.upsert e).is_dirty = true ↔ (n.valid.isSome = true ∧ n.valid ≠ e.valid)) ∧
    (n.valid = e.valid → (n.upsert e).valid = none) ∧
    (n.valid ≠ e.valid → (n.upsert e).valid = n.valid) := by
  unfold NewEmail.upsert EmailUpdate.is_dirty upsert_opt
  by_cases h : n.valid = e.valid <;> simp [h]

theorem upsert_is_dirty_iff_witness :
    ((NewEmail.mk "a@b.com" (some true)).upsert
        (Email.mk 1 "a@b.com" false none)).valid
      = (NewEmail.mk "a@b.com" (some true)).valid :=
  (upsert_is_dirty_iff (NewEmail.mk "a@b.com" (some true))
    (Email.mk 1 "a@b.com" false none)).2.2 (by decide)

/-- C2: `get_opt` is the very same value-column lookup as `get` with
`.optional()` applied: it returns an empty option exactly when `get` fails
with `NotFound`, and returns the same entity whenever `get` succeeds. -/
theorem get_opt_agrees_with_get (db : List Email) (q : String) :
    Email.get_opt db q = optionalResult (Email.get db q) ∧
    (Email.get_opt db q = .ok none ↔ Email.get db q = .error .notFound) ∧
    (∀ e, Email.get db q = .ok e ↔ Email.get_opt db q = .ok (some e)) := by
  refine ⟨rfl, ?_, ?_⟩ <;>
  · unfold Email.get_opt Email.get optionalResult firstEmail
    cases db.find? (fun e => e.value == q) <;> simp

theorem get_opt_agrees_with_get_witness :
    Email.get_opt [] "a@b.com" = Except.ok none
      ↔ Email.get [] "a@b.com" = Except.error DbError.notFound :=
  (get_opt_agrees_with_get [] "a@b.com").2.1

/-- C3 fails as stated for a predicate that reads the `unscoped` flag: on a
hidden row, `scope` flips the flag to false, after which the row no longer
matches, so a following `noscope` with the same predicate is a no-op and the
final flag is not the effect of the last operation. -/
theorem scope_last_write_counterexample :
    Email.noscope
        (Email.scope [Email.mk 1 "a@b.com" true none] (fun e => e.unscoped))
        (fun e => e.unscoped)
      ≠ Email.noscope [Email.mk 1 "a@b.com" true none] (fun e => e.unscoped) := by
  decide

/-- C3 (amended): `scope` sets `unscoped := false` and `noscope` sets
`unscoped := true` on every matching row, both are idempotent for every
predicate, `scoped()` is the negation of the stored flag, and — for every
predicate whose truth does not depend on the `unscoped` flag — after a
sequence of scope/noscope with the same predicate the flag equals the effect
of the last operation applied. -/
theorem scope_noscope_semantics (db : List Email) (p : Email → Bool) :
    Email.scope (Email.scope db p) p = Email.scope db p ∧
    Email.noscope (Email.noscope db p) p = Email.noscope db p ∧
    (∀ e : Email, e.scoped = !e.unscoped) ∧
    List.Forall₂ (fun r r' => p r = true → r'.unscoped = false) db (Email.scope db p) ∧
    List.Forall₂ (fun r r' => p r = true → r'.unscoped = true) db (Email.noscope db p) ∧
    ((∀ (e : Email) (b : Bool), p { e with unscoped := b } = p e) →
      Email.noscope (Email.scope db p) p = Email.noscope db p ∧
      Email.scope (Email.noscope db p) p = Email.scope db p) := by
  refine ⟨?_, ?_, fun _ => rfl, ?_, ?_, ?_⟩
  · unfold Email.scope
    apply map_map_congr
    intro e
    by_cases hp : p e
    · simp only [hp, if_true]
      by_cases hp2 : p { e with unscoped := false } <;> simp [hp2]
    · simp [hp]
  · unfold Email.noscope
    apply map_map_congr
    intro e
    by_cases hp : p e
    · simp only [hp, if_true]
      by_cases hp2 : p { e with unscoped := true } <;> simp [hp2]
    · simp [hp]
  · unfold Email.scope
    apply forall₂_map_self
    intro e hp
    simp [hp]
  · unfold Email.noscope
    apply forall₂_map_self
    intro e hp
    simp [hp]
  · intro hindep
    constructor
    · unfold Email.scope Email.noscope
      apply map_map_congr
      intro e
      by_cases hp : p e
      · simp [hp, hindep]
      · simp [hp]
    · unfold Email.scope Email.noscope
      apply map_map_congr
      intro e
      by_cases hp : p e
      · simp [hp, hindep]
      · simp [hp]

theorem scope_noscope_semantics_witness :
    Email.noscope
        (Email.scope [Email.mk 1 "a@b.com" true none] (fun e => e.value == "a@b.com"))
        (fun e => e.value == "a@b.com")
      = Email.noscope [Email.mk 1 "a@b.com" true none] (fun e => e.value == "a@b.com") :=
  ((scope_noscope_semantics [Email.mk 1 "a@b.com" true none]
      (fun e => e.value == "a@b.com")).2.2.2.2.2 (fun _ _ => rfl)).1

/-- C4: `scope` and `noscope` touch only the `unscoped` flag: every row keeps
its `id`, `value` and `valid`, rows not matched by the predicate are entirely
unchanged, and no row is removed from the store. -/
theorem scope_noscope_frame (db : List Email) (p : Email → Bool) :
    (Email.scope db p).length = db.length ∧
    (Email.noscope db p).length = db.length ∧
    List.Forall₂ (fun r r' => r'.id = r.id ∧ r'.value = r.value ∧ r'.valid = r.valid ∧
      (p r = false → r' = r)) db (Email.scope db p) ∧
    List.Forall₂ (fun r r' => r'.id = r.id ∧ r'.value = r.value ∧ r'.valid = r.valid ∧
      (p r = false → r' = r)) db (Email.noscope db p) := by
  refine ⟨by simp [Email.scope], by simp [Email.noscope], ?_, ?_⟩
  · unfold Email.scope
    apply forall₂_map_self
    intro e
    by_cases hp : p e <;> simp [hp]
  · unfold Email.noscope
    apply forall₂_map_self
    intro e
    by_cases hp : p e <;> simp [hp]

theorem scope_noscope_frame_witness :
    (Email.scope [Email.mk 1 "a@b.com" true none] (fun e => e.unscoped)).length
      = [Email.mk 1 "a@b.com" true none].length :=
  (scope_noscope_frame [Email.mk 1 "a@b.com" true none] (fun e => e.unscoped)).1

theorem firstBreach_ok_mem (tbl : List Breach) (bid : Int) (b : Breach)
    (h : firstBreach tbl bid = .ok b) : b ∈ tbl := by
  unfold firstBreach at h
  cases hf : tbl.find? (fun b => b.id == bid) with
  | none => rw [hf] at h; cases h
  | some b' =>
    rw [hf] at h
    injection h with h
    subst h
    exact List.mem_of_find?_eq_some hf

theorem resolveBreaches_error_of_dangling (pairs : List (Int × Option String))
    (tbl : List Breach) (x : Int × Option String) (hx : x ∈ pairs)
    (hfind : tbl.find? (fun b => b.id == x.1) = none) :
    resolveBreaches pairs tbl = .error .notFound := by
  induction pairs with
  | nil => cases hx
  | cons hd t ih =>
    obtain ⟨bid, pw⟩ := hd
    rcases List.mem_cons.mp hx with heq | hmem
    · subst heq
      unfold resolveBreaches firstBreach
      rw [hfind]
    · unfold resolveBreaches
      cases hfb : firstBreach tbl bid with
      | error err => cases err; rfl
      | ok b => rw [ih hmem]

theorem resolveBreaches_ok_spec (pairs : List (Int × Option String))
    (tbl : List Breach) (l : List (Breach × Option String))
    (h : resolveBreaches pairs tbl = .ok l) :
    l.map Prod.snd = pairs.map Prod.snd ∧ ∀ x ∈ l, x.1 ∈ tbl := by
  induction pairs generalizing l with
  | nil =>
    unfold resolveBreaches at h
    injection h with h
    subst h
    exact ⟨rfl, by intro x hx; cases hx⟩
  | cons hd t ih =>
    obtain ⟨bid, pw⟩ := hd
    unfold resolveBreaches at h
    cases hfb : firstBreach tbl bid with
    | error err => rw [hfb] at h; cases h
    | ok b =>
      rw [hfb] at h
      cases hr : resolveBreaches t tbl with
      | error err => rw [hr] at h; cases h
      | ok l' =>
        rw [hr] at h
        injection h with h
        subst h
        obtain ⟨ih1, ih2⟩ := ih l' hr
        refine ⟨by simp [ih1], ?_⟩
        intro x hx
        rcases List.mem_cons.mp hx with heq | hmem
        · subst heq
          exact firstBreach_ok_mem tbl bid b hfb
        · exact ih2 x hmem

/-- C5: resolving an email's breaches looks up the association rows that
reference the email and resolves each referenced breach by id; a dangling
breach id makes the whole resolution fail with the hard store error (the
spec's IntegrityFault), never a partial result, and on success every
per-relation password is passed through unchanged and every breach comes
from the store. -/
theorem breaches_integrity (e : Email) (assoc : List BreachEmail)
    (tbl : List Breach) :
    (∀ a ∈ assoc, a.email_id = e.id →
      tbl.find? (fun b => b.id == a.breach_id) = none →
      Email.breaches e assoc tbl = .error .notFound) ∧
    (∀ l, Email.breaches e assoc tbl = .ok l →
      l.map Prod.snd
        = (assoc.filter (fun a => a.email_id == e.id)).map (fun a => a.password) ∧
      ∀ x ∈ l, x.1 ∈ tbl) := by
  constructor
  · intro a ha hid hfind
    unfold Email.breaches
    apply resolveBreaches_error_of_dangling _ _ (a.breach_id, a.password) _ hfind
    apply List.mem_map.mpr
    refine ⟨a, ?_, rfl⟩
    apply List.mem_filter.mpr
    exact ⟨ha, by simp [hid]⟩
  · intro l hl
    unfold Email.breaches at hl
    obtain ⟨h1, h2⟩ := resolveBreaches_ok_spec _ _ _ hl
    refine ⟨?_, h2⟩
    rw [h1, List.map_map]
    rfl

theorem breaches_integrity_witness :
    Email.breaches (Email.mk 1 "a@b.com" false none)
        [BreachEmail.mk 7 1 (some "hunter2")] []
      = .error .notFound :=
  (breaches_integrity (Email.mk 1 "a@b.com" false none)
      [BreachEmail.mk 7 1 (some "hunter2")] []).1
    (BreachEmail.mk 7 1 (some "hunter2")) (by simp) rfl rfl

/-- C6: the detail header always contains the id and the green debug-quoted
natural key; `valid = some true` appends a green "valid" badge, `some false`
a red "invalid" badge, and `none` renders no badge at all (the rendering is a
total function, so it still succeeds); zero breaches render an empty
children block. -/
theorem detailed_print_spec (d : DetailedEmail) :
    Segment.mk none (toString d.id) ∈ d.print [] ∧
    Segment.mk (some Color.green) (rustDebugQuote d.value) ∈ d.print [] ∧
    (d.valid = none → d.print [] =
      [Segment.mk none (toString d.id),
       Segment.mk (some Color.green) (rustDebugQuote d.value)]) ∧
    (d.valid = some true → d.print [] =
      [Segment.mk none (toString d.id),
       Segment.mk (some Color.green) (rustDebugQuote d.value),
       Segment.mk none " [", Segment.mk (some Color.green) "valid",
       Segment.mk none "]"]) ∧
    (d.valid = some false → d.print [] =
      [Segment.mk none (toString d.id),
       Segment.mk (some Color.green) (rustDebugQuote d.value),
       Segment.mk none " [", Segment.mk (some Color.red) "invalid",
       Segment.mk none "]"]) ∧
    (d.breaches = [] → d.children = []) := by
  have hchild : d.breaches = [] → d.children = [] := by
    intro h
    unfold DetailedEmail.children
    rw [h]
    rfl
  unfold DetailedEmail.print DF.writeId DF.debug DF.displaySeg DF.write
  cases hv : d.valid with
  | none => exact ⟨by simp, by simp, by simp, by simp, by simp, hchild⟩
  | some v =>
    cases v <;> exact ⟨by simp, by simp, by simp, by simp, by simp, hchild⟩

theorem detailed_print_spec_witness :
    (DetailedEmail.mk 1 "a@b.com" [] false (some true)).print [] =
      [Segment.mk none (toString (1 : Int)),
       Segment.mk (some Color.green) (rustDebugQuote "a@b.com"),
       Segment.mk none " [", Segment.mk (some Color.green) "valid",
       Segment.mk none "]"] :=
  (detailed_print_spec (DetailedEmail.mk 1 "a@b.com" [] false (some true))).2.2.2.1 rfl

theorem escapeChar_no_ctrl (c : Char) :
    Char.ofNat 10 ∉ escapeChar c ∧ Char.ofNat 13 ∉ escapeChar c := by
  unfold escapeChar
  split_ifs with h1 h2 h3 h4 h5
  · exact ⟨by decide, by decide⟩
  · exact ⟨by decide, by decide⟩
  · exact ⟨by decide, by decide⟩
  · exact ⟨by decide, by decide⟩
  · exact ⟨by decide, by decide⟩
  · constructor <;> simp only [List.mem_singleton] <;> intro h
    · exact h3 h.symm
    · exact h4 h.symm

theorem escapeChars_no_ctrl (cs : List Char) :
    Char.ofNat 10 ∉ escapeChars cs ∧ Char.ofNat 13 ∉ escapeChars cs := by
  induction cs with
  | nil => exact ⟨by decide, by decide⟩
  | cons c t ih =>
    unfold escapeChars
    simp only [List.mem_append]
    constructor
    · rintro (h | h)
      · exact (escapeChar_no_ctrl c).1 h
      · exact ih.1 h
    · rintro (h | h)
      · exact (escapeChar_no_ctrl c).2 h
      · exact ih.2 h

/-- C7: `printable` always succeeds, ignores the store handle entirely, and
the resulting view displays as the debug-quoted natural key; the rendering
is a single line (the quoting escapes every newline and carriage return). -/
theorem printable_spec (e : Email) (n : NewEmail) (db db' : List Email) :
    e.printable db = .ok (PrintableEmail.mk e.value) ∧
    e.printable db = e.printable db' ∧
    n.printable db = .ok (PrintableEmail.mk n.value) ∧
    n.printable db = n.printable db' ∧
    (PrintableEmail.mk e.value).display = rustDebugQuote e.value ∧
    Char.ofNat 10 ∉ (rustDebugQuote e.value).data ∧
    Char.ofNat 13 ∉ (rustDebugQuote e.value).data := by
  refine ⟨rfl, rfl, rfl, rfl, rfl, ?_, ?_⟩ <;>
  · have hd : (rustDebugQuote e.value).data
        = '"' :: (escapeChars e.value.data ++ ['"']) := rfl
    intro hmem
    rw [hd] at hmem
    simp only [List.mem_cons, List.mem_append, List.not_mem_nil, or_false] at hmem
    rcases hmem with h | h | h
    · exact absurd h (by decide)
    · first
      | exact (escapeChars_no_ctrl e.value.data).1 h
      | exact (escapeChars_no_ctrl e.value.data).2 h
    · exact absurd h (by decide)

/-- C8: an update with no set attribute (`valid = none`, so
`is_dirty() == false`) applied to the store is a guaranteed no-op: the store
state is unchanged and re-fetching by the update's id yields the same
entity. -/
theorem apply_non_dirty_noop (u : EmailUpdate) (db : List Email)
    (h : u.is_dirty = false) :
    update_email db u = db ∧
    u.apply db = .ok (db, u.id) ∧
    Email.by_id (update_email db u) u.id = Email.by_id db u.id := by
  have hnone : u.valid = none := by
    unfold EmailUpdate.is_dirty at h
    cases hv : u.valid with
    | none => rfl
    | some v => rw [hv] at h; cases h
  have hmap : update_email db u = db := by
    unfold update_email
    apply map_id_of_fixed
    intro e
    rw [hnone]
    cases e
    split <;> rfl
  refine ⟨hmap, ?_, by rw [hmap]⟩
  unfold EmailUpdate.apply
  rw [hmap]

theorem apply_non_dirty_noop_witness :
    update_email [Email.mk 1 "a@b.com" false (some true)] (EmailUpdate.mk 1 none)
      = [Email.mk 1 "a@b.com" false (some true)] :=
  (apply_non_dirty_noop (EmailUpdate.mk 1 none)
    [Email.mk 1 "a@b.com" false (some true)] rfl).1

/-- C9: the script-bridge conversion for this entity type is the identity
and can never fail: `try_into_new` returns `Ok(self)` without touching the
scripting state. -/
theorem try_into_new_identity (i : InsertEmail) (s : ScriptState) :
    i.try_into_new s = .ok i := rfl

/-- C10: the update produced by `upsert` carries exactly the existing
entity's id plus the diffed optional `valid` field, and applying any
`EmailUpdate` preserves every row's id, natural-key value and `unscoped`
flag, and removes no row. -/
theorem update_frame (n : NewEmail) (e : Email) (u : EmailUpdate)
    (db : List Email) :
    (n.upsert e).id = e.id ∧
    n.upsert e = EmailUpdate.mk e.id (upsert_opt n.valid e.valid) ∧
    (update_email db u).map (fun r => (r.id, r.value, r.unscoped))
      = db.map (fun r => (r.id, r.value, r.unscoped)) ∧
    (update_email db u).length = db.length := by
  refine ⟨rfl, rfl, ?_, by simp [update_email]⟩
  unfold update_email
  apply map_map_congr
  intro r
  split <;> rfl

theorem printable_spec_witness :
    (Email.mk 1 "a@b.com" false none).printable []
      = .ok (PrintableEmail.mk (Email.mk 1 "a@b.com" false none).value) :=
  (printable_spec (Email.mk 1 "a@b.com" false none)
    (NewEmail.mk "a@b.com" none) [] []).1
